import Mathlib

/-!
Verification of the `.cpres` bundle handler (`src-tauri/src/cpres.rs`).

A `.cpres` file is a ZIP archive containing `manifest.json`, `slides.json`,
`arrangement.json`, any number of `themes/*.json` entries and binary media
payloads.  The Rust module exposes four operations: `open_bundle`,
`save_bundle`, `read_bundle_media` and `import_media_files`.

Modelling decisions (shallow embedding):

* File contents and Rust byte buffers (`Vec<u8>`) are `List Nat`.
  A Rust `String` is its UTF-8 byte sequence, so the JSON text payloads of
  `BundleState` / `ParsedBundle` are also `List Nat`; validity of the bytes
  as UTF-8 is the decidable predicate `validUTF8` below (`read_to_string`
  fails on invalid UTF-8, which we model explicitly).
* Entry names, paths, ids, extensions and MIME strings are Lean `String`s.
  Rust `str::starts_with` / `ends_with` are byte-prefix tests, modelled as
  `strStartsWith` / `strEndsWith` on the character lists.
* The filesystem is an association list from path to `FileData`.  A file is
  either raw bytes or a ZIP archive; the archive is kept structurally as its
  ordered entry list because the byte-level container format lives in the
  external `zip` crate, which is byte-transparent for entry contents.
* The `zip` crate resolves `by_name` through a name map built while reading
  the central directory in order, so for duplicate names the LAST entry with
  a given name wins; `zipByName` reproduces that.
* External collaborators are parameters: `jp` stands for
  `serde_json::from_str` composed with top-level key extraction (returning
  `none` on a parse error and the list of top-level object keys otherwise,
  with non-objects having no keys, exactly the behaviour of `Value::get`);
  `sha` stands for the SHA-256 hex digest of the `sha2` crate; `gen` stands
  for the stream of `uuid::Uuid::new_v4().to_string()` values, consumed in
  call order.
* `save_bundle` takes the name `tmp` chosen by `NamedTempFile::new_in`
  (fresh, hence distinct from the destination and from the media sources in
  the theorems) and a failure oracle `oracle : Nat → Bool` injecting an I/O
  failure at the numbered I/O step, modelling "simulated I/O failure
  mid-write"; `fun _ => false` is the failure-free run.
-/

namespace Cpres

/-- Bytes of a file or of a Rust `String` (its UTF-8 encoding). -/
abbrev Bytes := List Nat

/-- One entry of a ZIP archive: a name and its (decompressed) payload. -/
structure ZEntry where
  name : String
  data : Bytes
deriving DecidableEq

/-- Content of one file on disk: raw bytes, or a ZIP archive viewed
structurally (the byte serialisation is the external `zip` crate's). -/
inductive FileData where
  | raw (b : Bytes)
  | zipArchive (entries : List ZEntry)
deriving DecidableEq

/-- The filesystem: an association list from absolute path to content.
Insertion shadows, lookup takes the first association. -/
abbrev FS := List (String × FileData)

def fsLookup (fs : FS) (p : String) : Option FileData :=
  match fs with
  | [] => none
  | (q, d) :: rest => if q = p then some d else fsLookup rest p

def fsInsert (p : String) (d : FileData) (fs : FS) : FS :=
  (p, d) :: fs

def fsRemove (p : String) (fs : FS) : FS :=
  fs.filter (fun e => e.1 ≠ p)

/-- Bytes returned by `std::fs::read`.  For a file that happens to be a ZIP
archive the real bytes are the crate's serialisation; no theorem below reads
an archive as raw bytes, so a simple concatenation stands in for it. -/
def fileBytes : FileData → Bytes
  | .raw b => b
  | .zipArchive es => es.foldr (fun e acc => e.data ++ acc) []

/-- Rust `str::starts_with` (byte/char prefix test). -/
def strStartsWith (s p : String) : Bool :=
  p.toList.isPrefixOf s.toList

/-- Rust `str::ends_with` (byte/char suffix test). -/
def strEndsWith (s p : String) : Bool :=
  p.toList.isSuffixOf s.toList

/-- First 8 characters, modelling the byte slice `&id[..8]` on the ASCII
hex-and-hyphen uuid string. -/
def strTake (n : Nat) (s : String) : String :=
  String.mk (s.toList.take n)

/-- Rust `str::to_lowercase` restricted to ASCII, which is all the MIME
table distinguishes. -/
def strToLower (s : String) : String :=
  String.mk (s.toList.map Char.toLower)

/-- UTF-8 validity of a byte sequence, as checked by
`std::io::Read::read_to_string` (rejecting overlong forms, surrogates and
out-of-range code points). -/
def validUTF8 : Bytes → Bool
  | [] => true
  | b :: rest =>
    if b < 0x80 then validUTF8 rest
    else if 0xC2 ≤ b && b ≤ 0xDF then
      match rest with
      | c :: rest2 => (0x80 ≤ c && c ≤ 0xBF) && validUTF8 rest2
      | [] => false
    else if b = 0xE0 then
      match rest with
      | c :: c2 :: rest2 =>
          (0xA0 ≤ c && c ≤ 0xBF) && (0x80 ≤ c2 && c2 ≤ 0xBF) && validUTF8 rest2
      | _ => false
    else if (0xE1 ≤ b && b ≤ 0xEC) || b = 0xEE || b = 0xEF then
      match rest with
      | c :: c2 :: rest2 =>
          (0x80 ≤ c && c ≤ 0xBF) && (0x80 ≤ c2 && c2 ≤ 0xBF) && validUTF8 rest2
      | _ => false
    else if b = 0xED then
      match rest with
      | c :: c2 :: rest2 =>
          (0x80 ≤ c && c ≤ 0x9F) && (0x80 ≤ c2 && c2 ≤ 0xBF) && validUTF8 rest2
      | _ => false
    else if b = 0xF0 then
      match rest with
      | c :: c2 :: c3 :: rest2 =>
          (0x90 ≤ c && c ≤ 0xBF) && (0x80 ≤ c2 && c2 ≤ 0xBF) &&
            (0x80 ≤ c3 && c3 ≤ 0xBF) && validUTF8 rest2
      | _ => false
    else if 0xF1 ≤ b && b ≤ 0xF3 then
      match rest with
      | c :: c2 :: c3 :: rest2 =>
          (0x80 ≤ c && c ≤ 0xBF) && (0x80 ≤ c2 && c2 ≤ 0xBF) &&
            (0x80 ≤ c3 && c3 ≤ 0xBF) && validUTF8 rest2
      | _ => false
    else if b = 0xF4 then
      match rest with
      | c :: c2 :: c3 :: rest2 =>
          (0x80 ≤ c && c ≤ 0x8F) && (0x80 ≤ c2 && c2 ≤ 0xBF) &&
            (0x80 ≤ c3 && c3 ≤ 0xBF) && validUTF8 rest2
      | _ => false
    else false

/-- `CpresError` from `cpres.rs`: the five error constructors.  Messages
that the Rust code builds itself are reproduced verbatim; messages coming
from the OS or from external crates are fixed representative strings (the
code never inspects them). -/
inductive CpresError where
  | io (msg : String)
  | zipErr (msg : String)
  | json (msg : String)
  | invalidBundle (msg : String)
  | missingFile (name : String)
deriving DecidableEq

/-- `ThemeFile { filename, content }`; `content` is a Rust `String`. -/
structure ThemeFile where
  filename : String
  content : Bytes
deriving DecidableEq

/-- `ParsedBundle`: raw JSON strings plus the collected theme files. -/
structure ParsedBundle where
  manifest : Bytes
  slides : Bytes
  arrangement : Bytes
  themes : List ThemeFile
deriving DecidableEq

/-- `MediaEntry` computed during import. -/
structure MediaEntry where
  id : String
  filename : String
  path : String
  mime : String
  sha256 : String
  byte_size : Nat
  media_type : String
deriving DecidableEq

/-- `MediaFileRef { id, source_path, bundle_path }`. -/
structure MediaFileRef where
  id : String
  source_path : String
  bundle_path : String
deriving DecidableEq

/-- `BundleState`: the writer's input. -/
structure BundleState where
  manifest : Bytes
  slides : Bytes
  arrangement : Bytes
  themes : List ThemeFile
  media : List MediaFileRef
deriving DecidableEq

/-- `ZipArchive::by_name`: the name map is filled while scanning the central
directory in order, so the last entry carrying the name wins. -/
def zipByName : List ZEntry → String → Option ZEntry
  | [], _ => none
  | e :: rest, n =>
    match zipByName rest n with
    | some e2 => some e2
    | none => if e.name = n then some e else none

/-- `File::open` + `ZipArchive::new` on a path: a missing file is an I/O
error, a non-archive file is a ZIP format error. -/
def zipOpen (fs : FS) (path : String) : Except CpresError (List ZEntry) :=
  match fsLookup fs path with
  | none => .error (.io "No such file or directory (os error 2)")
  | some (.raw _) => .error (.zipErr "invalid Zip archive")
  | some (.zipArchive es) => .ok es

/-- `read_zip_file`: `by_name` failure is mapped to `MissingFile name`;
`read_to_string` fails on bytes that are not valid UTF-8. -/
def read_zip_file (entries : List ZEntry) (name : String) : Except CpresError Bytes :=
  match zipByName entries name with
  | none => .error (.missingFile name)
  | some e =>
    if validUTF8 e.data then .ok e.data
    else .error (.io "stream did not contain valid UTF-8")

def isThemeName (n : String) : Bool :=
  strStartsWith n "themes/" && strEndsWith n ".json"

/-- The theme-collection loop of `open_bundle`: `for i in 0..archive.len()`,
take entry `i`'s name, and for a name under `themes/` ending in `.json`
re-read the entry by name (hence through `zipByName`). -/
def collect_themes (all : List ZEntry) : List ZEntry → Except CpresError (List ThemeFile)
  | [] => .ok []
  | e :: rest =>
    if isThemeName e.name then
      match read_zip_file all e.name with
      | .error err => .error err
      | .ok content =>
        match collect_themes all rest with
        | .error err => .error err
        | .ok ts => .ok ({ filename := e.name, content := content } :: ts)
    else collect_themes all rest

/-- `open_bundle`, with the JSON parser `jp` as parameter (see header). -/
def open_bundle (jp : Bytes → Option (List String)) (fs : FS) (path : String) :
    Except CpresError ParsedBundle :=
  match zipOpen fs path with
  | .error e => .error e
  | .ok entries =>
    match read_zip_file entries "manifest.json" with
    | .error e => .error e
    | .ok manifest =>
      match jp manifest with
      | none => .error (.json "expected value")
      | some keys =>
        if !(keys.contains "formatVersion") then
          .error (.invalidBundle "Missing formatVersion in manifest")
        else if !(keys.contains "presentationId") then
          .error (.invalidBundle "Missing presentationId in manifest")
        else
          match read_zip_file entries "slides.json" with
          | .error e => .error e
          | .ok slides =>
            match read_zip_file entries "arrangement.json" with
            | .error e => .error e
            | .ok arrangement =>
              match collect_themes entries entries with
              | .error e => .error e
              | .ok themes =>
                .ok { manifest := manifest, slides := slides,
                      arrangement := arrangement, themes := themes }

/-- `read_bundle_media`: open the archive, look the entry up by name
(mapping any lookup failure to `MissingFile`), return its raw bytes. -/
def read_bundle_media (fs : FS) (bundle_path media_path : String) :
    Except CpresError Bytes :=
  match zipOpen fs bundle_path with
  | .error e => .error e
  | .ok entries =>
    match zipByName entries media_path with
    | none => .error (.missingFile media_path)
    | some e => .ok e.data

/-- Split a character list at every occurrence of `sep`; the groups between
separators, with `[[]]` for the empty input. -/
def splitListOn (sep : Char) (cs : List Char) : List (List Char) :=
  cs.foldr
    (fun c acc =>
      match acc with
      | [] => [[c]]
      | g :: gs => if c = sep then [] :: g :: gs else (c :: g) :: gs)
    [[]]

/-- Rust `Path::file_name().and_then(|n| n.to_str())`: the final non-empty
component, skipping `.` components, with `..` yielding none. -/
def fileNameOf (p : String) : Option String :=
  let comps := (splitListOn '/' p.toList).filter
    (fun c => !(c.isEmpty || c == [ '.' ]))
  match comps.getLast? with
  | none => none
  | some c => if c = [ '.', '.' ] then none else some (String.mk c)

/-- Rust `Path::extension().and_then(|e| e.to_str())` applied to the file
name: the portion after the last dot, none when there is no dot or the only
dot is the leading one. -/
def extensionOf (p : String) : Option String :=
  match fileNameOf p with
  | none => none
  | some name =>
    match splitListOn '.' name.toList with
    | [] => none
    | [_] => none
    | first :: rest =>
      if first.isEmpty && rest.length == 1 then none
      else (rest.getLast?).map String.mk

/-- The static extension → MIME table of `import_media_files`. -/
def mimeOfExt (ext : String) : String :=
  if ext = "jpg" || ext = "jpeg" then "image/jpeg"
  else if ext = "png" then "image/png"
  else if ext = "gif" then "image/gif"
  else if ext = "webp" then "image/webp"
  else if ext = "svg" then "image/svg+xml"
  else if ext = "mp4" then "video/mp4"
  else if ext = "webm" then "video/webm"
  else if ext = "mov" then "video/quicktime"
  else if ext = "mp3" then "audio/mpeg"
  else if ext = "wav" then "audio/wav"
  else if ext = "ogg" then "audio/ogg"
  else "application/octet-stream"

/-- The coarse media class derived from the MIME prefix. -/
def mediaTypeOfMime (mime : String) : String :=
  if strStartsWith mime "image/" then "image"
  else if strStartsWith mime "video/" then "video"
  else if strStartsWith mime "audio/" then "audio"
  else "unknown"

/-- The lower-cased extension `import_media_files` computes for a path. -/
def lowerExtOf (p : String) : String :=
  strToLower ((extensionOf p).getD "")

/-- `import_media_files`, with the digest `sha` and the uuid stream `gen` as
parameters; `k` numbers the next uuid to draw.  The first unreadable path
aborts the whole batch (the `?` on `fs::read`), discarding earlier
entries. -/
def import_media_files (sha : Bytes → String) (gen : Nat → String) (fs : FS) :
    List String → Nat → Except CpresError (List MediaEntry)
  | [], _ => .ok []
  | p :: rest, k =>
    let id := gen k
    let filename := (fileNameOf p).getD "unknown"
    let extension := lowerExtOf p
    let mime := mimeOfExt extension
    let media_type := mediaTypeOfMime mime
    match fsLookup fs p with
    | none => .error (.io "No such file or directory (os error 2)")
    | some fd =>
      let data := fileBytes fd
      let bundle_path := "media/" ++ strTake 8 id ++ "." ++ extension
      match import_media_files sha gen fs rest (k + 1) with
      | .error e => .error e
      | .ok restEntries =>
        .ok ({ id := id, filename := filename, path := bundle_path,
               mime := mime, sha256 := sha data, byte_size := data.length,
               media_type := media_type } :: restEntries)

/-- The media entry the import loop body builds for one file: uuid `id`,
source path `p`, file content `fd`. -/
def entryFor (sha : Bytes → String) (id : String) (p : String) (fd : FileData) :
    MediaEntry :=
  { id := id
    filename := (fileNameOf p).getD "unknown"
    path := "media/" ++ strTake 8 id ++ "." ++ lowerExtOf p
    mime := mimeOfExt (lowerExtOf p)
    sha256 := sha (fileBytes fd)
    byte_size := (fileBytes fd).length
    media_type := mediaTypeOfMime (mimeOfExt (lowerExtOf p)) }

/-- Decidable substring test on character lists, to state whether an error
message mentions a path. -/
def listContainsSub (needle : List Char) : List Char → Bool
  | [] => needle.isEmpty
  | c :: t => needle.isPrefixOf (c :: t) || listContainsSub needle t

/-- Whether the string `sub` occurs inside `s`. -/
def strContainsSub (sub s : String) : Bool :=
  listContainsSub sub.toList s.toList

/-- The injected-failure error of the save oracle (an `std::io::Error`
surfacing through `CpresError::Io`). -/
def ioFail (k : Nat) : CpresError :=
  .io ("injected I/O failure at step " ++ toString k)

/-- The theme-writing loop of `save_bundle` (`start_file` + `write_all` per
theme, one oracle step each), returning the entries and the next step
number. -/
def writeThemes (oracle : Nat → Bool) (themes : List ThemeFile) (k : Nat) :
    Except CpresError (List ZEntry × Nat) :=
  match themes with
  | [] => .ok ([], k)
  | t :: rest =>
    if oracle k then .error (ioFail k)
    else
      match writeThemes oracle rest (k + 1) with
      | .error e => .error e
      | .ok (es, k2) => .ok ({ name := t.filename, data := t.content } :: es, k2)

/-- The media-writing loop of `save_bundle`: a `source_path` starting with
`bundle:` is skipped with `continue` before any I/O; otherwise `fs::read`
(one oracle step, failing also when the source is absent) then
`start_file` + `write_all` (one oracle step). -/
def writeMedia (oracle : Nat → Bool) (fs : FS) :
    List MediaFileRef → Nat → Except CpresError (List ZEntry × Nat)
  | [], k => .ok ([], k)
  | r :: rest, k =>
    if strStartsWith r.source_path "bundle:" then writeMedia oracle fs rest k
    else if oracle k then .error (ioFail k)
    else
      match fsLookup fs r.source_path with
      | none => .error (.io "No such file or directory (os error 2)")
      | some fd =>
        if oracle (k + 1) then .error (ioFail (k + 1))
        else
          match writeMedia oracle fs rest (k + 2) with
          | .error e => .error e
          | .ok (es, k2) =>
            .ok ({ name := r.bundle_path, data := fileBytes fd } :: es, k2)

/-- `save_bundle`.  Oracle steps: 0 `create_dir_all`, 1 `NamedTempFile::
new_in`, 2-4 the manifest/slides/arrangement writes, then one per theme,
two per non-sentinel media entry, one for `zip.finish`, one for `persist`.
Returns the call's result together with the filesystem afterwards; on every
failure after the temporary file exists it is dropped (`NamedTempFile`'s
best-effort cleanup, modelled as succeeding). -/
def save_bundle (oracle : Nat → Bool) (fs : FS) (dest tmp : String)
    (st : BundleState) : Except CpresError Unit × FS :=
  if oracle 0 then (.error (ioFail 0), fs)
  else if oracle 1 then (.error (ioFail 1), fs)
  else
    let fs1 := fsInsert tmp (.raw []) fs
    if oracle 2 then (.error (ioFail 2), fsRemove tmp fs1)
    else if oracle 3 then (.error (ioFail 3), fsRemove tmp fs1)
    else if oracle 4 then (.error (ioFail 4), fsRemove tmp fs1)
    else
      match writeThemes oracle st.themes 5 with
      | .error e => (.error e, fsRemove tmp fs1)
      | .ok (themeEs, k1) =>
        match writeMedia oracle fs1 st.media k1 with
        | .error e => (.error e, fsRemove tmp fs1)
        | .ok (mediaEs, k2) =>
          if oracle k2 then (.error (ioFail k2), fsRemove tmp fs1)
          else
            let entries : List ZEntry :=
              { name := "manifest.json", data := st.manifest } ::
              { name := "slides.json", data := st.slides } ::
              { name := "arrangement.json", data := st.arrangement } ::
              (themeEs ++ mediaEs)
            let fs2 := fsInsert tmp (.zipArchive entries) fs1
            if oracle (k2 + 1) then (.error (ioFail (k2 + 1)), fsRemove tmp fs2)
            else (.ok (), fsInsert dest (.zipArchive entries) (fsRemove tmp fs2))

/-- The failure-free oracle: a run of `save_bundle` in which no I/O call
fails (sources may still be missing). -/
def noFail : Nat → Bool := fun _ => false

/-- The archive entries a fully successful save writes: the three fixed
JSON entries, the themes in order, then the non-sentinel media payloads in
order. -/
def mediaEntriesOf (fs : FS) (media : List MediaFileRef) : List ZEntry :=
  media.foldr
    (fun r acc =>
      if strStartsWith r.source_path "bundle:" then acc
      else
        match fsLookup fs r.source_path with
        | some fd => { name := r.bundle_path, data := fileBytes fd } :: acc
        | none => acc)
    []

def bundleEntriesOf (fs : FS) (st : BundleState) : List ZEntry :=
  { name := "manifest.json", data := st.manifest } ::
  { name := "slides.json", data := st.slides } ::
  { name := "arrangement.json", data := st.arrangement } ::
  (st.themes.map (fun t => { name := t.filename, data := t.content }) ++
    mediaEntriesOf fs st.media)

/-- A small concrete bundle state for witnesses. -/
def exState : BundleState :=
  { manifest := [77], slides := [83], arrangement := [65], themes := [], media := [] }

/-- A filesystem holding a prior bundle file at the destination. -/
def exFS : FS := [("/p/old.cpres", .raw [1, 2, 3])]

/-- A bundle state whose only media reference is the `bundle:` sentinel. -/
def sentinelState : BundleState :=
  { manifest := [77], slides := [83], arrangement := [65], themes := [],
    media := [{ id := "m1", source_path := "bundle:media/abc.jpg",
                bundle_path := "media/abc.jpg" }] }

/-- The entries such a save writes: the sentinel payload is absent. -/
def sentinelEntries : List ZEntry :=
  [{ name := "manifest.json", data := [77] },
   { name := "slides.json", data := [83] },
   { name := "arrangement.json", data := [65] }]

/-- A one-entry archive whose manifest is the two bytes of the text of an
empty JSON object; `slides.json` and `arrangement.json` are absent. -/
def emptyManifestFS : FS :=
  [("/b.cpres", .zipArchive [{ name := "manifest.json", data := [123, 125] }])]

/-- An archive with a valid manifest and slides but no arrangement and no
media, plus a corrupt (non-archive) file, for the C5 witness. -/
def c5FS : FS :=
  [("/ok.cpres", .zipArchive
      [{ name := "manifest.json", data := [123, 125] },
       { name := "slides.json", data := [91, 93] }]),
   ("/corrupt.cpres", .raw [80, 75])]

/-- The parser used by several witnesses: it accepts every text and reports
both required keys present. -/
def jpBoth : Bytes → Option (List String) :=
  fun _ => some ["formatVersion", "presentationId"]

/-- An archive with all required entries and one theme, for witnesses. -/
def fullFS : FS :=
  [("/full.cpres", .zipArchive
      [{ name := "manifest.json", data := [123, 125] },
       { name := "slides.json", data := [91, 93] },
       { name := "arrangement.json", data := [91, 93] },
       { name := "themes/dark.json", data := [123, 125] }])]

/-- A fixed digest function for witnesses (any function works: the claims
quantify over it). -/
def sha0 : Bytes → String := fun _ => "d0"

/-- A fixed uuid stream for witnesses. -/
def gen0 : Nat → String := fun _ => "aaaaaaaa-0000-4000-8000-000000000000"

/-- Three media source files with the claim's example names. -/
def mediaFS : FS :=
  [("photo.PNG", .raw [1]), ("clip.mov", .raw [2, 3]), ("notes.txt", .raw [4])]

/-- One extension-less source file. -/
def readmeFS : FS := [("README", .raw [82])]

/-- The entry importing `README` produces under `sha0`/`gen0`. -/
def readmeEntry : MediaEntry :=
  { id := "aaaaaaaa-0000-4000-8000-000000000000"
    filename := "README"
    path := "media/aaaaaaaa."
    mime := "application/octet-stream"
    sha256 := "d0"
    byte_size := 1
    media_type := "unknown" }

/-- The same source file and a uuid stream whose first two draws are
distinct uuids sharing their first 8 hex characters. -/
def dupFS : FS := [("a.jpg", .raw [9])]

def genC9 : Nat → String := fun k =>
  if k = 0 then "aaaaaaaa-0000-4000-8000-000000000001"
  else "aaaaaaaa-0000-4000-8000-000000000002"

/-- The two entries the duplicate import produces under `sha0`/`genC9`. -/
def c9e1 : MediaEntry :=
  { id := "aaaaaaaa-0000-4000-8000-000000000001", filename := "a.jpg",
    path := "media/aaaaaaaa.jpg", mime := "image/jpeg", sha256 := "d0",
    byte_size := 1, media_type := "image" }

def c9e2 : MediaEntry :=
  { id := "aaaaaaaa-0000-4000-8000-000000000002", filename := "a.jpg",
    path := "media/aaaaaaaa.jpg", mime := "image/jpeg", sha256 := "d0",
    byte_size := 1, media_type := "image" }

/-- Uuid draws that differ already in their first 8 characters. -/
def genW : Nat → String := fun k =>
  if k = 0 then "11111111-0000-4000-8000-000000000001"
  else "22222222-0000-4000-8000-000000000002"

/-- A state meeting all of C1's stated hypotheses whose single media
reference targets a `themes/`-shaped bundle path. -/
def stBad : BundleState :=
  { manifest := [77], slides := [83], arrangement := [65], themes := [],
    media := [{ id := "m1", source_path := "/src/a",
                bundle_path := "themes/x.json" }] }

def fsBad : FS := [("/src/a", .raw [123])]

/-- A state satisfying the amended C1's hypotheses. -/
def stGood : BundleState :=
  { manifest := [123, 125], slides := [91, 93], arrangement := [91, 93],
    themes := [{ filename := "themes/dark.json", content := [123, 125] }],
    media := [{ id := "m1", source_path := "/src/img",
                bundle_path := "media/img.png" }] }

def fsGood : FS := [("/src/img", .raw [7, 8])]

theorem fsLookup_fsInsert_self (fs : FS) (q : String) (d : FileData) :
    fsLookup (fsInsert q d fs) q = some d := by
  simp [fsInsert, fsLookup]

theorem fsLookup_fsInsert_ne (fs : FS) {p q : String} (h : q ≠ p) (d : FileData) :
    fsLookup (fsInsert q d fs) p = fsLookup fs p := by
  simp [fsInsert, fsLookup, h]

theorem fsRemove_cons_eq (q a : String) (d : FileData) (tl : FS) (h : a = q) :
    fsRemove q ((a, d) :: tl) = fsRemove q tl := by
  simp [fsRemove, List.filter_cons, h]

theorem fsRemove_cons_ne (q a : String) (d : FileData) (tl : FS) (h : ¬ a = q) :
    fsRemove q ((a, d) :: tl) = (a, d) :: fsRemove q tl := by
  simp [fsRemove, List.filter_cons, h]

theorem fsLookup_fsRemove_ne (fs : FS) {p q : String} (h : q ≠ p) :
    fsLookup (fsRemove q fs) p = fsLookup fs p := by
  induction fs with
  | nil => rfl
  | cons hd tl ih =>
    obtain ⟨a, d⟩ := hd
    by_cases hq : a = q
    · rw [fsRemove_cons_eq q a d tl hq, ih]
      have hp : ¬ a = p := fun hh => h (hq.symm.trans hh)
      show fsLookup tl p = if a = p then some d else fsLookup tl p
      rw [if_neg hp]
    · rw [fsRemove_cons_ne q a d tl hq]
      show (if a = p then some d else fsLookup (fsRemove q tl) p) =
        if a = p then some d else fsLookup tl p
      rw [ih]

theorem fsLookup_cleanup {tmp dest : String} (h : tmp ≠ dest) (d : FileData)
    (fs : FS) :
    fsLookup (fsRemove tmp (fsInsert tmp d fs)) dest = fsLookup fs dest := by
  rw [fsLookup_fsRemove_ne _ h, fsLookup_fsInsert_ne _ h]

theorem mediaEntriesOf_nil (fs : FS) : mediaEntriesOf fs [] = [] := rfl

theorem mediaEntriesOf_cons_sentinel (fs : FS) (r : MediaFileRef)
    (rest : List MediaFileRef) (h : strStartsWith r.source_path "bundle:" = true) :
    mediaEntriesOf fs (r :: rest) = mediaEntriesOf fs rest := by
  simp [mediaEntriesOf, h]

theorem mediaEntriesOf_cons (fs : FS) (r : MediaFileRef)
    (rest : List MediaFileRef) (fd : FileData)
    (h : strStartsWith r.source_path "bundle:" = false)
    (hl : fsLookup fs r.source_path = some fd) :
    mediaEntriesOf fs (r :: rest) =
      { name := r.bundle_path, data := fileBytes fd } :: mediaEntriesOf fs rest := by
  simp [mediaEntriesOf, h, hl]

theorem writeThemes_ok_entries (oracle : Nat → Bool) (ts : List ThemeFile)
    (k : Nat) (es : List ZEntry) (k2 : Nat)
    (h : writeThemes oracle ts k = .ok (es, k2)) :
    es = ts.map (fun t => { name := t.filename, data := t.content }) := by
  induction ts generalizing k es k2 with
  | nil =>
    rw [writeThemes] at h
    simp only [Except.ok.injEq, Prod.mk.injEq] at h
    simp [← h.1]
  | cons t rest ih =>
    rw [writeThemes] at h
    cases ho : oracle k with
    | true => simp [ho] at h
    | false =>
      simp only [ho, Bool.false_eq_true, if_false] at h
      cases hr : writeThemes oracle rest (k + 1) with
      | error e => simp [hr] at h
      | ok pr =>
        obtain ⟨es2, k3⟩ := pr
        rw [hr] at h
        simp only [Except.ok.injEq, Prod.mk.injEq] at h
        have := ih (k + 1) es2 k3 hr
        simp [← h.1, this]

theorem writeMedia_ok_entries (oracle : Nat → Bool) (fs : FS)
    (ms : List MediaFileRef) (k : Nat) (es : List ZEntry) (k2 : Nat)
    (h : writeMedia oracle fs ms k = .ok (es, k2)) :
    es = mediaEntriesOf fs ms := by
  induction ms generalizing k es k2 with
  | nil =>
    rw [writeMedia] at h
    simp only [Except.ok.injEq, Prod.mk.injEq] at h
    simp [mediaEntriesOf, ← h.1]
  | cons r rest ih =>
    rw [writeMedia] at h
    cases hs : strStartsWith r.source_path "bundle:" with
    | true =>
      rw [hs] at h
      simp only [if_true] at h
      rw [mediaEntriesOf_cons_sentinel fs r rest hs]
      exact ih k es k2 h
    | false =>
      rw [hs] at h
      simp only [Bool.false_eq_true, if_false] at h
      cases ho : oracle k with
      | true => simp [ho] at h
      | false =>
        simp only [ho, Bool.false_eq_true, if_false] at h
        cases hl : fsLookup fs r.source_path with
        | none => simp [hl] at h
        | some fd =>
          rw [hl] at h
          cases ho2 : oracle (k + 1) with
          | true => simp [ho2] at h
          | false =>
            simp only [ho2, Bool.false_eq_true, if_false] at h
            cases hr : writeMedia oracle fs rest (k + 2) with
            | error e => simp [hr] at h
            | ok pr =>
              obtain ⟨es2, k3⟩ := pr
              rw [hr] at h
              simp only [Except.ok.injEq, Prod.mk.injEq] at h
              rw [mediaEntriesOf_cons fs r rest fd hs hl]
              have := ih (k + 2) es2 k3 hr
              simp [← h.1, this]

/-- C2 helper: the two possible outcomes of a save, for every failure
oracle.  On any error the destination's association is untouched; on
success it holds exactly the fully-written archive. -/
theorem save_bundle_cases (oracle : Nat → Bool) (fs : FS) (dest tmp : String)
    (st : BundleState) (hne : tmp ≠ dest) :
    ((∃ e, (save_bundle oracle fs dest tmp st).1 = .error e) →
        fsLookup (save_bundle oracle fs dest tmp st).2 dest = fsLookup fs dest) ∧
    ((save_bundle oracle fs dest tmp st).1 = .ok () →
        fsLookup (save_bundle oracle fs dest tmp st).2 dest =
          some (.zipArchive (bundleEntriesOf (fsInsert tmp (.raw []) fs) st))) := by
  rw [save_bundle]
  cases h0 : oracle 0 with
  | true => simp
  | false =>
  cases h1 : oracle 1 with
  | true => simp
  | false =>
  simp only [Bool.false_eq_true, if_false]
  cases h2 : oracle 2 with
  | true => simp [fsLookup_cleanup hne]
  | false =>
  cases h3 : oracle 3 with
  | true => simp [fsLookup_cleanup hne]
  | false =>
  cases h4 : oracle 4 with
  | true => simp [fsLookup_cleanup hne]
  | false =>
  simp only [Bool.false_eq_true, if_false]
  cases hT : writeThemes oracle st.themes 5 with
  | error e => simp [fsLookup_cleanup hne]
  | ok prT =>
  obtain ⟨themeEs, k1⟩ := prT
  simp only []
  cases hM : writeMedia oracle (fsInsert tmp (.raw []) fs) st.media k1 with
  | error e => simp [fsLookup_cleanup hne]
  | ok prM =>
  obtain ⟨mediaEs, k2⟩ := prM
  simp only []
  cases hF : oracle k2 with
  | true => simp [fsLookup_cleanup hne]
  | false =>
  cases hP : oracle (k2 + 1) with
  | true => simp [fsLookup_cleanup hne, fsLookup_fsInsert_ne _ hne]
  | false =>
  simp only [Bool.false_eq_true, if_false]
  constructor
  · rintro ⟨e, he⟩
    simp at he
  · intro _
    rw [fsLookup_fsInsert_self]
    have hTe := writeThemes_ok_entries oracle st.themes 5 themeEs k1 hT
    have hMe := writeMedia_ok_entries oracle (fsInsert tmp (.raw []) fs)
      st.media k1 mediaEs k2 hM
    simp [bundleEntriesOf, hTe, hMe]

/-- **C2**: for every destination, bundle state and injected-failure
oracle, if `save_bundle` fails at any step (directory creation, temp-file
creation, any entry write, archive finalisation — and even the final
rename), the destination's prior content, or prior absence, is unchanged;
on success the destination holds exactly the fully-written archive.  `tmp`
is the fresh temporary name, hence distinct from the destination. -/
theorem claim_C2_save_is_atomic (oracle : Nat → Bool) (fs : FS) (dest tmp : String)
    (st : BundleState) (hne : tmp ≠ dest) :
    (∀ e, (save_bundle oracle fs dest tmp st).1 = .error e →
        fsLookup (save_bundle oracle fs dest tmp st).2 dest = fsLookup fs dest) ∧
    ((save_bundle oracle fs dest tmp st).1 = .ok () →
        fsLookup (save_bundle oracle fs dest tmp st).2 dest =
          some (.zipArchive (bundleEntriesOf (fsInsert tmp (.raw []) fs) st))) :=
  ⟨fun e he => (save_bundle_cases oracle fs dest tmp st hne).1 ⟨e, he⟩,
   (save_bundle_cases oracle fs dest tmp st hne).2⟩

/-- Witness for C2: a save that is forced to fail at step 3 (the
`slides.json` write) leaves the existing destination file untouched. -/
theorem claim_C2_witness :
    fsLookup (save_bundle (fun k => k == 3) exFS "/p/old.cpres" "/p/.tmp1" exState).2
        "/p/old.cpres" = fsLookup exFS "/p/old.cpres" :=
  (claim_C2_save_is_atomic (fun k => k == 3) exFS "/p/old.cpres" "/p/.tmp1" exState
      (by decide)).1 (ioFail 3) rfl

/-- **C3** (code bug): `save_bundle` hits the `continue` for a sentinel
(`bundle:`-prefixed) media source, so the save SUCCEEDS, the written
archive has no entry at the reference's `bundle_path`, and reading that
path back from the saved bundle fails — the payload is silently dropped
instead of being carried over or rejected. -/
theorem claim_C3_sentinel_media_dropped (fs : FS) (dest tmp : String) :
    (save_bundle noFail fs dest tmp sentinelState).1 = .ok () ∧
    fsLookup (save_bundle noFail fs dest tmp sentinelState).2 dest =
      some (.zipArchive sentinelEntries) ∧
    zipByName sentinelEntries "media/abc.jpg" = none ∧
    read_bundle_media (save_bundle noFail fs dest tmp sentinelState).2 dest
      "media/abc.jpg" = .error (.missingFile "media/abc.jpg") := by
  have hsave : save_bundle noFail fs dest tmp sentinelState =
      (.ok (), fsInsert dest (.zipArchive sentinelEntries)
        (fsRemove tmp (fsInsert tmp (.zipArchive sentinelEntries)
          (fsInsert tmp (.raw []) fs)))) := rfl
  have hlook : fsLookup (save_bundle noFail fs dest tmp sentinelState).2 dest =
      some (.zipArchive sentinelEntries) := by
    rw [hsave]; exact fsLookup_fsInsert_self _ _ _
  have hzo : zipOpen (save_bundle noFail fs dest tmp sentinelState).2 dest =
      .ok sentinelEntries := by
    rw [zipOpen, hlook]
  refine ⟨by rw [hsave], hlook, by decide, ?_⟩
  rw [read_bundle_media, hzo]
  rfl

theorem if_not_true {α : Type} (a b : α) : (if (!true) = true then a else b) = b := by
  simp

theorem if_not_false {α : Type} (a b : α) : (if (!false) = true then a else b) = a := by
  simp

theorem read_zip_file_ok (entries : List ZEntry) (n : String) (b : Bytes)
    (h : read_zip_file entries n = .ok b) :
    ∃ e, zipByName entries n = some e ∧ b = e.data ∧ validUTF8 b = true := by
  rw [read_zip_file] at h
  cases hz : zipByName entries n with
  | none => rw [hz] at h; exact absurd h (by simp)
  | some e =>
    rw [hz] at h
    cases hv : validUTF8 e.data with
    | false => simp [hv] at h
    | true =>
      simp [hv] at h
      exact ⟨e, rfl, h.symm, h ▸ hv⟩

theorem collect_themes_ok_mem (all : List ZEntry) (l : List ZEntry)
    (ts : List ThemeFile) (h : collect_themes all l = .ok ts) :
    ∀ t ∈ ts, validUTF8 t.content = true ∧
      ∃ e, zipByName all t.filename = some e ∧ t.content = e.data := by
  induction l generalizing ts with
  | nil =>
    rw [collect_themes] at h
    simp only [Except.ok.injEq] at h
    subst h
    intro t ht
    exact absurd ht (by simp)
  | cons x rest ih =>
    rw [collect_themes] at h
    cases hn : isThemeName x.name with
    | false => rw [hn] at h; simp only [Bool.false_eq_true, if_false] at h; exact ih ts h
    | true =>
      rw [hn] at h
      simp only [if_true] at h
      cases hr : read_zip_file all x.name with
      | error e => simp [hr] at h
      | ok content =>
        rw [hr] at h
        cases hc : collect_themes all rest with
        | error e => simp [hc] at h
        | ok ts2 =>
          rw [hc] at h
          simp only [Except.ok.injEq] at h
          subst h
          intro t ht
          rcases List.mem_cons.mp ht with heq | hmem
          · subst heq
            obtain ⟨e, hz, hb, hv⟩ := read_zip_file_ok all x.name content hr
            exact ⟨hv, e, hz, hb⟩
          · exact ih ts2 hc t hmem

/-- **C4**: with the `manifest.json` entry present and textually readable,
`open_bundle` fails with a JSON-parse error when the text does not parse,
and with a validation error naming the missing key when `formatVersion` or
`presentationId` is absent from the parsed object — with no hypothesis at
all on `slides.json`, `arrangement.json` or any other entry, since the
manifest check runs before any other extraction. -/
theorem claim_C4_manifest_validated_first (jp : Bytes → Option (List String))
    (fs : FS) (path : String) (entries : List ZEntry) (m : ZEntry)
    (hfs : fsLookup fs path = some (.zipArchive entries))
    (hm : zipByName entries "manifest.json" = some m)
    (hv : validUTF8 m.data = true) :
    (jp m.data = none → open_bundle jp fs path = .error (.json "expected value")) ∧
    (∀ keys, jp m.data = some keys → keys.contains "formatVersion" = false →
        open_bundle jp fs path =
          .error (.invalidBundle "Missing formatVersion in manifest")) ∧
    (∀ keys, jp m.data = some keys → keys.contains "formatVersion" = true →
        keys.contains "presentationId" = false →
        open_bundle jp fs path =
          .error (.invalidBundle "Missing presentationId in manifest")) := by
  have hzo : zipOpen fs path = .ok entries := by rw [zipOpen, hfs]
  have hrm : read_zip_file entries "manifest.json" = .ok m.data := by
    simp [read_zip_file, hm, hv]
  refine ⟨fun hjp => ?_, fun keys hjp hnk => ?_, fun keys hjp hk hnp => ?_⟩
  · simp [open_bundle, hzo, hrm, hjp]
  · have hnk2 : "formatVersion" ∉ keys := by simpa using hnk
    simp [open_bundle, hzo, hrm, hjp, hnk2]
  · have hk2 : "formatVersion" ∈ keys := by simpa using hk
    have hnp2 : "presentationId" ∉ keys := by simpa using hnp
    simp [open_bundle, hzo, hrm, hjp, hk2, hnp2]

/-- Witness for C4: on an archive whose manifest is an empty object (and
whose other required entries are even absent), a parser seeing no value
gives the JSON error, one seeing an empty object gives the
`formatVersion` error, one seeing only `formatVersion` gives the
`presentationId` error. -/
theorem claim_C4_witness :
    open_bundle (fun _ => none) emptyManifestFS "/b.cpres" =
      .error (.json "expected value") ∧
    open_bundle (fun _ => some []) emptyManifestFS "/b.cpres" =
      .error (.invalidBundle "Missing formatVersion in manifest") ∧
    open_bundle (fun _ => some ["formatVersion"]) emptyManifestFS "/b.cpres" =
      .error (.invalidBundle "Missing presentationId in manifest") :=
  ⟨(claim_C4_manifest_validated_first (fun _ => none) emptyManifestFS "/b.cpres"
      _ _ rfl rfl (by decide)).1 rfl,
   (claim_C4_manifest_validated_first (fun _ => some []) emptyManifestFS "/b.cpres"
      _ _ rfl rfl (by decide)).2.1 [] rfl (by decide),
   (claim_C4_manifest_validated_first (fun _ => some ["formatVersion"])
      emptyManifestFS "/b.cpres" _ _ rfl rfl (by decide)).2.2
      ["formatVersion"] rfl (by decide) (by decide)⟩

/-- **C5**: reading a named entry that is absent fails with a
missing-entry error naming exactly that entry — for `read_bundle_media` on
the requested media path and for `open_bundle` on `slides.json` /
`arrangement.json` (aborting the whole open) — while container corruption
(a file that is not an archive) is reported as the distinct ZIP
format-error constructor. -/
theorem claim_C5_missing_entry_errors (jp : Bytes → Option (List String))
    (fs : FS) (bpath mpath : String) (entries : List ZEntry) (b : Bytes)
    (m s : ZEntry) (keys : List String) :
    (fsLookup fs bpath = some (.zipArchive entries) →
        zipByName entries mpath = none →
        read_bundle_media fs bpath mpath = .error (.missingFile mpath)) ∧
    (fsLookup fs bpath = some (.raw b) →
        read_bundle_media fs bpath mpath = .error (.zipErr "invalid Zip archive")) ∧
    (fsLookup fs bpath = some (.raw b) →
        open_bundle jp fs bpath = .error (.zipErr "invalid Zip archive")) ∧
    (fsLookup fs bpath = some (.zipArchive entries) →
        zipByName entries "manifest.json" = some m → validUTF8 m.data = true →
        jp m.data = some keys → keys.contains "formatVersion" = true →
        keys.contains "presentationId" = true →
        zipByName entries "slides.json" = none →
        open_bundle jp fs bpath = .error (.missingFile "slides.json")) ∧
    (fsLookup fs bpath = some (.zipArchive entries) →
        zipByName entries "manifest.json" = some m → validUTF8 m.data = true →
        jp m.data = some keys → keys.contains "formatVersion" = true →
        keys.contains "presentationId" = true →
        zipByName entries "slides.json" = some s → validUTF8 s.data = true →
        zipByName entries "arrangement.json" = none →
        open_bundle jp fs bpath = .error (.missingFile "arrangement.json")) := by
  refine ⟨fun hfs hz => ?_, fun hfs => ?_, fun hfs => ?_,
    fun hfs hm hv hjp hk hp hz => ?_, fun hfs hm hv hjp hk hp hs hvs hz => ?_⟩
  · have hzo : zipOpen fs bpath = .ok entries := by rw [zipOpen, hfs]
    simp [read_bundle_media, hzo, hz]
  · have hzo : zipOpen fs bpath = .error (.zipErr "invalid Zip archive") := by
      rw [zipOpen, hfs]
    simp [read_bundle_media, hzo]
  · have hzo : zipOpen fs bpath = .error (.zipErr "invalid Zip archive") := by
      rw [zipOpen, hfs]
    simp [open_bundle, hzo]
  · have hzo : zipOpen fs bpath = .ok entries := by rw [zipOpen, hfs]
    have hrm : read_zip_file entries "manifest.json" = .ok m.data := by
      simp [read_zip_file, hm, hv]
    have hrs : read_zip_file entries "slides.json" =
        .error (.missingFile "slides.json") := by
      simp [read_zip_file, hz]
    have hk2 : "formatVersion" ∈ keys := by simpa using hk
    have hp2 : "presentationId" ∈ keys := by simpa using hp
    simp [open_bundle, hzo, hrm, hjp, hk2, hp2, hrs]
  · have hzo : zipOpen fs bpath = .ok entries := by rw [zipOpen, hfs]
    have hrm : read_zip_file entries "manifest.json" = .ok m.data := by
      simp [read_zip_file, hm, hv]
    have hrs : read_zip_file entries "slides.json" = .ok s.data := by
      simp [read_zip_file, hs, hvs]
    have hra : read_zip_file entries "arrangement.json" =
        .error (.missingFile "arrangement.json") := by
      simp [read_zip_file, hz]
    have hk2 : "formatVersion" ∈ keys := by simpa using hk
    have hp2 : "presentationId" ∈ keys := by simpa using hp
    simp [open_bundle, hzo, hrm, hjp, hk2, hp2, hrs, hra]

/-- Witness for C5: a missing media entry, a corrupt container for both
`read_bundle_media` and `open_bundle`, and a missing `arrangement.json`
each produce the stated error at concrete inputs. -/
theorem claim_C5_witness :
    read_bundle_media c5FS "/ok.cpres" "media/zz.png" =
      .error (.missingFile "media/zz.png") ∧
    read_bundle_media c5FS "/corrupt.cpres" "media/zz.png" =
      .error (.zipErr "invalid Zip archive") ∧
    open_bundle jpBoth c5FS "/corrupt.cpres" =
      .error (.zipErr "invalid Zip archive") ∧
    open_bundle jpBoth c5FS "/ok.cpres" =
      .error (.missingFile "arrangement.json") :=
  ⟨(claim_C5_missing_entry_errors jpBoth c5FS "/ok.cpres" "media/zz.png" _ []
      ⟨"manifest.json", [123, 125]⟩ ⟨"slides.json", [91, 93]⟩ []).1
      rfl (by decide),
   (claim_C5_missing_entry_errors jpBoth c5FS "/corrupt.cpres" "media/zz.png" []
      [80, 75] ⟨"manifest.json", [123, 125]⟩ ⟨"slides.json", [91, 93]⟩ []).2.1 rfl,
   (claim_C5_missing_entry_errors jpBoth c5FS "/corrupt.cpres" "media/zz.png" []
      [80, 75] ⟨"manifest.json", [123, 125]⟩ ⟨"slides.json", [91, 93]⟩ []).2.2.1 rfl,
   (claim_C5_missing_entry_errors jpBoth c5FS "/ok.cpres" "media/zz.png" _ []
      ⟨"manifest.json", [123, 125]⟩ ⟨"slides.json", [91, 93]⟩
      ["formatVersion", "presentationId"]).2.2.2.2
      rfl (by decide) (by decide) rfl (by decide) (by decide) (by decide)
      (by decide) (by decide)⟩

/-- **C10**: whenever `open_bundle` succeeds on an archive, every returned
text — manifest, slides, arrangement and each collected theme — is the
byte-exact content of the corresponding archive entry and is valid UTF-8;
an entry among these with invalid UTF-8 would instead have failed the
`read_to_string` step, aborting the open. -/
theorem claim_C10_open_requires_utf8 (jp : Bytes → Option (List String))
    (fs : FS) (path : String) (entries : List ZEntry) (pb : ParsedBundle)
    (hfs : fsLookup fs path = some (.zipArchive entries))
    (hok : open_bundle jp fs path = .ok pb) :
    (validUTF8 pb.manifest = true ∧
      ∃ e, zipByName entries "manifest.json" = some e ∧ pb.manifest = e.data) ∧
    (validUTF8 pb.slides = true ∧
      ∃ e, zipByName entries "slides.json" = some e ∧ pb.slides = e.data) ∧
    (validUTF8 pb.arrangement = true ∧
      ∃ e, zipByName entries "arrangement.json" = some e ∧ pb.arrangement = e.data) ∧
    (∀ t ∈ pb.themes, validUTF8 t.content = true ∧
      ∃ e, zipByName entries t.filename = some e ∧ t.content = e.data) := by
  have hzo : zipOpen fs path = .ok entries := by rw [zipOpen, hfs]
  rw [open_bundle, hzo] at hok
  simp only [] at hok
  cases hrm : read_zip_file entries "manifest.json" with
  | error e => rw [hrm] at hok; exact absurd hok (by simp)
  | ok manifest =>
  rw [hrm] at hok
  simp only [] at hok
  cases hjp : jp manifest with
  | none => rw [hjp] at hok; exact absurd hok (by simp)
  | some keys =>
  rw [hjp] at hok
  simp only [] at hok
  cases hk : keys.contains "formatVersion" with
  | false => rw [hk, if_not_false] at hok; exact absurd hok (by simp)
  | true =>
  rw [hk, if_not_true] at hok
  cases hp : keys.contains "presentationId" with
  | false => rw [hp, if_not_false] at hok; exact absurd hok (by simp)
  | true =>
  rw [hp, if_not_true] at hok
  cases hrs : read_zip_file entries "slides.json" with
  | error e => rw [hrs] at hok; exact absurd hok (by simp)
  | ok slides =>
  rw [hrs] at hok
  simp only [] at hok
  cases hra : read_zip_file entries "arrangement.json" with
  | error e => rw [hra] at hok; exact absurd hok (by simp)
  | ok arrangement =>
  rw [hra] at hok
  simp only [] at hok
  cases hct : collect_themes entries entries with
  | error e => rw [hct] at hok; exact absurd hok (by simp)
  | ok themes =>
  rw [hct] at hok
  simp only [Except.ok.injEq] at hok
  subst hok
  obtain ⟨em, hzm, hbm, hvm⟩ := read_zip_file_ok entries "manifest.json" manifest hrm
  obtain ⟨es, hzs, hbs, hvs⟩ := read_zip_file_ok entries "slides.json" slides hrs
  obtain ⟨ea, hza, hba, hva⟩ := read_zip_file_ok entries "arrangement.json" arrangement hra
  exact ⟨⟨hvm, em, hzm, hbm⟩, ⟨hvs, es, hzs, hbs⟩, ⟨hva, ea, hza, hba⟩,
    collect_themes_ok_mem entries entries themes hct⟩

/-- Witness for C10: the opened full bundle's four texts are all valid
UTF-8 and byte-identical to their entries. -/
theorem claim_C10_witness :
    ∃ pb, open_bundle jpBoth fullFS "/full.cpres" = .ok pb ∧
      validUTF8 pb.manifest = true ∧
      (∀ t ∈ pb.themes, validUTF8 t.content = true) :=
  ⟨{ manifest := [123, 125], slides := [91, 93], arrangement := [91, 93],
     themes := [{ filename := "themes/dark.json", content := [123, 125] }] },
   rfl,
   ((claim_C10_open_requires_utf8 jpBoth fullFS "/full.cpres" _ _ rfl rfl).1).1,
   fun t ht => ((claim_C10_open_requires_utf8 jpBoth fullFS "/full.cpres" _ _ rfl
      rfl).2.2.2 t ht).1⟩

theorem import_ok_char (sha : Bytes → String) (gen : Nat → String) (fs : FS)
    (paths : List String) (k : Nat) (res : List MediaEntry)
    (h : import_media_files sha gen fs paths k = .ok res) :
    res.length = paths.length ∧
    ∀ i, (hi : i < res.length) → (hp : i < paths.length) →
      ∃ fd, fsLookup fs (paths.get ⟨i, hp⟩) = some fd ∧
        res.get ⟨i, hi⟩ = entryFor sha (gen (k + i)) (paths.get ⟨i, hp⟩) fd := by
  induction paths generalizing k res with
  | nil =>
    rw [import_media_files] at h
    simp only [Except.ok.injEq] at h
    subst h
    exact ⟨rfl, fun i hi hp => absurd hp (by simp)⟩
  | cons p rest ih =>
    rw [import_media_files] at h
    cases hl : fsLookup fs p with
    | none => rw [hl] at h; exact absurd h (by simp)
    | some fd =>
      rw [hl] at h
      cases hr : import_media_files sha gen fs rest (k + 1) with
      | error e => rw [hr] at h; exact absurd h (by simp)
      | ok restE =>
        rw [hr] at h
        simp only [Except.ok.injEq] at h
        subst h
        obtain ⟨hlen, hidx⟩ := ih (k + 1) restE hr
        refine ⟨by simp [hlen], ?_⟩
        intro i hi hp
        cases i with
        | zero => exact ⟨fd, hl, rfl⟩
        | succ j =>
          obtain ⟨fd2, hfd2, hres⟩ := hidx j (by simpa using hi) (by simpa using hp)
          refine ⟨fd2, by simpa using hfd2, ?_⟩
          have hk : k + 1 + j = k + (j + 1) := by omega
          rw [← hk]
          simpa using hres

theorem import_all_readable_ok (sha : Bytes → String) (gen : Nat → String)
    (fs : FS) (paths : List String) (k : Nat)
    (h : ∀ p ∈ paths, (fsLookup fs p).isSome = true) :
    ∃ res, import_media_files sha gen fs paths k = .ok res := by
  induction paths generalizing k with
  | nil => exact ⟨[], rfl⟩
  | cons p rest ih =>
    have hp : (fsLookup fs p).isSome = true := h p (by simp)
    obtain ⟨fd, hfd⟩ := Option.isSome_iff_exists.mp hp
    obtain ⟨res, hres⟩ := ih (k + 1) (fun q hq => h q (by simp [hq]))
    refine ⟨entryFor sha (gen k) p fd :: res, ?_⟩
    rw [import_media_files, hfd, hres]
    rfl

theorem import_unreadable_err (sha : Bytes → String) (gen : Nat → String)
    (fs : FS) (p : String) (hnone : fsLookup fs p = none) :
    ∀ (paths : List String) (k : Nat), p ∈ paths →
      import_media_files sha gen fs paths k =
        .error (.io "No such file or directory (os error 2)") := by
  intro paths
  induction paths with
  | nil => intro k hp; exact absurd hp (by simp)
  | cons q rest ih =>
    intro k hp
    rw [import_media_files]
    cases hl : fsLookup fs q with
    | none => rfl
    | some fd =>
      have hpr : p ∈ rest := by
        rcases List.mem_cons.mp hp with he | hm
        · subst he; rw [hl] at hnone; exact absurd hnone (by simp)
        · exact hm
      rw [ih (k + 1) hpr]

/-- **C6**: the MIME of every imported entry is the fixed table applied to
the lower-cased extension of its input path (and nothing else), the coarse
`media_type` is the class of that MIME's prefix, and the table sends the
claim's three examples — `photo.PNG`, `clip.mov`, `notes.txt` — to
`image/png`/`image`, `video/quicktime`/`video` and
`application/octet-stream`/`unknown`. -/
theorem claim_C6_mime_classification (sha : Bytes → String) (gen : Nat → String)
    (fs : FS) (paths : List String) (k : Nat) (res : List MediaEntry)
    (h : import_media_files sha gen fs paths k = .ok res) :
    (∀ i, (hi : i < res.length) → (hp : i < paths.length) →
      (res.get ⟨i, hi⟩).mime = mimeOfExt (lowerExtOf (paths.get ⟨i, hp⟩)) ∧
      (res.get ⟨i, hi⟩).media_type = mediaTypeOfMime ((res.get ⟨i, hi⟩).mime)) ∧
    (mimeOfExt (lowerExtOf "photo.PNG") = "image/png" ∧
      mediaTypeOfMime "image/png" = "image") ∧
    (mimeOfExt (lowerExtOf "clip.mov") = "video/quicktime" ∧
      mediaTypeOfMime "video/quicktime" = "video") ∧
    (mimeOfExt (lowerExtOf "notes.txt") = "application/octet-stream" ∧
      mediaTypeOfMime "application/octet-stream" = "unknown") := by
  refine ⟨?_, by decide, by decide, by decide⟩
  intro i hi hp
  obtain ⟨fd, _, hres⟩ := (import_ok_char sha gen fs paths k res h).2 i hi hp
  rw [hres]
  exact ⟨rfl, rfl⟩

/-- Witness for C6: a concrete import of the three example files carries
the stated MIME types and classes. -/
theorem claim_C6_witness :
    import_media_files sha0 gen0 mediaFS ["photo.PNG", "clip.mov", "notes.txt"] 0 =
      .ok [entryFor sha0 (gen0 0) "photo.PNG" (.raw [1]),
           entryFor sha0 (gen0 1) "clip.mov" (.raw [2, 3]),
           entryFor sha0 (gen0 2) "notes.txt" (.raw [4])] ∧
    (entryFor sha0 (gen0 0) "photo.PNG" (.raw [1])).mime = "image/png" ∧
    (entryFor sha0 (gen0 0) "photo.PNG" (.raw [1])).media_type = "image" ∧
    (entryFor sha0 (gen0 1) "clip.mov" (.raw [2, 3])).mime = "video/quicktime" ∧
    (entryFor sha0 (gen0 1) "clip.mov" (.raw [2, 3])).media_type = "video" ∧
    (entryFor sha0 (gen0 2) "notes.txt" (.raw [4])).mime = "application/octet-stream" ∧
    (entryFor sha0 (gen0 2) "notes.txt" (.raw [4])).media_type = "unknown" := by
  have h : import_media_files sha0 gen0 mediaFS
      ["photo.PNG", "clip.mov", "notes.txt"] 0 =
      .ok [entryFor sha0 (gen0 0) "photo.PNG" (.raw [1]),
           entryFor sha0 (gen0 1) "clip.mov" (.raw [2, 3]),
           entryFor sha0 (gen0 2) "notes.txt" (.raw [4])] := rfl
  have hc := claim_C6_mime_classification sha0 gen0 mediaFS
    ["photo.PNG", "clip.mov", "notes.txt"] 0 _ h
  refine ⟨h, ?_, ?_, ?_, ?_, ?_, ?_⟩
  · exact ((hc.1 0 (by decide) (by decide)).1).trans (by decide)
  · exact ((hc.1 0 (by decide) (by decide)).2).trans (by decide)
  · exact ((hc.1 1 (by decide) (by decide)).1).trans (by decide)
  · exact ((hc.1 1 (by decide) (by decide)).2).trans (by decide)
  · exact ((hc.1 2 (by decide) (by decide)).1).trans (by decide)
  · exact ((hc.1 2 (by decide) (by decide)).2).trans (by decide)

/-- **C7 (amended)**: every imported entry's `path` is `media/`, the first
8 characters of its own `id`, a dot, and the lower-cased extension — the
dot is ALWAYS present, so an extension-less input yields a path ending in
a trailing dot (`media/<id8>.`), not the claimed dot-less `media/<id8>`. -/
theorem claim_C7_path_shape (sha : Bytes → String) (gen : Nat → String)
    (fs : FS) (paths : List String) (k : Nat) (res : List MediaEntry)
    (h : import_media_files sha gen fs paths k = .ok res) :
    ∀ i, (hi : i < res.length) → (hp : i < paths.length) →
      (res.get ⟨i, hi⟩).path =
        "media/" ++ strTake 8 ((res.get ⟨i, hi⟩).id) ++ "." ++
          lowerExtOf (paths.get ⟨i, hp⟩) := by
  intro i hi hp
  obtain ⟨fd, _, hres⟩ := (import_ok_char sha gen fs paths k res h).2 i hi hp
  rw [hres]
  rfl

/-- Counterexample to C7 as stated: importing the extension-less `README`
yields the path `media/aaaaaaaa.` with a trailing dot; the dot is NOT
omitted. -/
theorem claim_C7_counterexample :
    import_media_files sha0 gen0 readmeFS ["README"] 0 = .ok [readmeEntry] ∧
    readmeEntry.path = "media/aaaaaaaa." ∧
    readmeEntry.path ≠ "media/" ++ strTake 8 readmeEntry.id :=
  ⟨rfl, rfl, by decide⟩

/-- Witness for the amended C7 at the same concrete import. -/
theorem claim_C7_witness :
    import_media_files sha0 gen0 readmeFS ["README"] 0 = .ok [readmeEntry] ∧
    readmeEntry.path =
      "media/" ++ strTake 8 readmeEntry.id ++ "." ++ lowerExtOf "README" :=
  ⟨rfl, claim_C7_path_shape sha0 gen0 readmeFS ["README"] 0 [readmeEntry]
    rfl 0 (by decide) (by decide)⟩

/-- **C8 (amended)**: if any input path is unreadable the whole import
fails with the propagated I/O error (whose message is the OS text, which
does not carry the offending path), returning no partial list; if every
path is readable the batch succeeds with exactly one entry per input path,
in input order (the `i`-th entry is computed from the `i`-th path's name
and content). -/
theorem claim_C8_all_or_nothing (sha : Bytes → String) (gen : Nat → String)
    (fs : FS) (paths : List String) (k : Nat) :
    ((∃ p ∈ paths, fsLookup fs p = none) →
        import_media_files sha gen fs paths k =
          .error (.io "No such file or directory (os error 2)")) ∧
    ((∀ p ∈ paths, (fsLookup fs p).isSome = true) →
        ∃ res, import_media_files sha gen fs paths k = .ok res ∧
          res.length = paths.length ∧
          ∀ i, (hi : i < res.length) → (hp : i < paths.length) →
            ∃ fd, fsLookup fs (paths.get ⟨i, hp⟩) = some fd ∧
              (res.get ⟨i, hi⟩).filename = (fileNameOf (paths.get ⟨i, hp⟩)).getD "unknown" ∧
              (res.get ⟨i, hi⟩).sha256 = sha (fileBytes fd) ∧
              (res.get ⟨i, hi⟩).byte_size = (fileBytes fd).length) := by
  constructor
  · rintro ⟨p, hp, hnone⟩
    exact import_unreadable_err sha gen fs p hnone paths k hp
  · intro hall
    obtain ⟨res, hres⟩ := import_all_readable_ok sha gen fs paths k hall
    obtain ⟨hlen, hidx⟩ := import_ok_char sha gen fs paths k res hres
    refine ⟨res, hres, hlen, ?_⟩
    intro i hi hp
    obtain ⟨fd, hfd, he⟩ := hidx i hi hp
    exact ⟨fd, hfd, by rw [he]; rfl, by rw [he]; rfl, by rw [he]; rfl⟩

/-- Counterexample to C8 as stated: the error produced for an unreadable
path is the bare OS message, which does not contain the offending path
`zzz.txt` — the failure does not identify the offending file. -/
theorem claim_C8_counterexample :
    import_media_files sha0 gen0 [] ["zzz.txt"] 0 =
      .error (.io "No such file or directory (os error 2)") ∧
    strContainsSub "zzz.txt" "No such file or directory (os error 2)" = false :=
  ⟨rfl, by decide⟩

/-- Witness for the amended C8: the batch over one readable and then one
missing file fails as a whole, and the all-readable batch returns one
entry per path. -/
theorem claim_C8_witness :
    import_media_files sha0 gen0 mediaFS ["photo.PNG", "zzz.txt"] 0 =
      .error (.io "No such file or directory (os error 2)") ∧
    ∃ res, import_media_files sha0 gen0 mediaFS ["photo.PNG", "clip.mov"] 0 =
        .ok res ∧ res.length = 2 :=
  ⟨(claim_C8_all_or_nothing sha0 gen0 mediaFS ["photo.PNG", "zzz.txt"] 0).1
      ⟨"zzz.txt", by decide, by decide⟩,
   by
    obtain ⟨res, hres, hlen, _⟩ :=
      (claim_C8_all_or_nothing sha0 gen0 mediaFS ["photo.PNG", "clip.mov"] 0).2
        (by decide)
    exact ⟨res, hres, hlen⟩⟩

theorem mediaPath_inj {a b ext : String}
    (h : "media/" ++ a ++ "." ++ ext = "media/" ++ b ++ "." ++ ext) : a = b := by
  have hd := congrArg String.data h
  simp only [String.data_append, List.append_assoc] at hd
  have h2 := List.append_cancel_left hd
  have h4 := List.append_cancel_right h2
  cases a; cases b; exact congrArg String.mk h4

/-- **C9 (amended)**: importing the same file twice in one batch yields two
entries with identical `sha256` (the digest is a function of the bytes
alone, unsalted) whose ids are the two fresh uuid draws — distinct
whenever the draws are distinct — and whose paths are distinct whenever
the draws differ within their first 8 characters (ids sharing an 8-char
prefix, possible for distinct uuids, give colliding paths). -/
theorem claim_C9_duplicate_import (sha : Bytes → String) (gen : Nat → String)
    (fs : FS) (p : String) (fd : FileData) (k : Nat)
    (hl : fsLookup fs p = some fd) :
    import_media_files sha gen fs [p, p] k =
      .ok [entryFor sha (gen k) p fd, entryFor sha (gen (k + 1)) p fd] ∧
    (entryFor sha (gen k) p fd).sha256 = (entryFor sha (gen (k + 1)) p fd).sha256 ∧
    (gen k ≠ gen (k + 1) →
      (entryFor sha (gen k) p fd).id ≠ (entryFor sha (gen (k + 1)) p fd).id) ∧
    (strTake 8 (gen k) ≠ strTake 8 (gen (k + 1)) →
      (entryFor sha (gen k) p fd).path ≠ (entryFor sha (gen (k + 1)) p fd).path) := by
  refine ⟨?_, rfl, fun hne he => hne he, fun hne he => ?_⟩
  · rw [import_media_files, hl, import_media_files, hl, import_media_files]
    rfl
  · exact hne (mediaPath_inj he)

/-- Counterexample to C9 as stated: two distinct fresh ids can share their
first 8 characters, in which case the two entries for the same file have
different ids but the SAME path — "different path" is not guaranteed. -/
theorem claim_C9_counterexample :
    import_media_files sha0 genC9 dupFS ["a.jpg", "a.jpg"] 0 = .ok [c9e1, c9e2] ∧
    c9e1.id ≠ c9e2.id ∧ c9e1.sha256 = c9e2.sha256 ∧ c9e1.path = c9e2.path :=
  ⟨rfl, by decide, rfl, rfl⟩

/-- Witness for the amended C9: with first-8-distinct draws, the same file
imported twice gets equal digests, distinct ids and distinct paths. -/
theorem claim_C9_witness :
    import_media_files sha0 genW dupFS ["a.jpg", "a.jpg"] 0 =
      .ok [entryFor sha0 (genW 0) "a.jpg" (.raw [9]),
           entryFor sha0 (genW 1) "a.jpg" (.raw [9])] ∧
    (entryFor sha0 (genW 0) "a.jpg" (.raw [9])).sha256 =
      (entryFor sha0 (genW 1) "a.jpg" (.raw [9])).sha256 ∧
    (entryFor sha0 (genW 0) "a.jpg" (.raw [9])).id ≠
      (entryFor sha0 (genW 1) "a.jpg" (.raw [9])).id ∧
    (entryFor sha0 (genW 0) "a.jpg" (.raw [9])).path ≠
      (entryFor sha0 (genW 1) "a.jpg" (.raw [9])).path := by
  obtain ⟨h1, h2, h3, h4⟩ :=
    claim_C9_duplicate_import sha0 genW dupFS "a.jpg" (.raw [9]) 0 rfl
  exact ⟨h1, h2, h3 (by decide), h4 (by decide)⟩

theorem zipByName_sound (es : List ZEntry) (n : String) (e : ZEntry)
    (h : zipByName es n = some e) : e ∈ es ∧ e.name = n := by
  induction es with
  | nil => simp [zipByName] at h
  | cons x rest ih =>
    rw [zipByName] at h
    cases hz : zipByName rest n with
    | some e2 =>
      rw [hz] at h
      simp only [Option.some.injEq] at h
      subst h
      obtain ⟨hm, hn⟩ := ih hz
      exact ⟨List.mem_cons_of_mem x hm, hn⟩
    | none =>
      rw [hz] at h
      by_cases hx : x.name = n
      · rw [if_pos hx] at h
        simp only [Option.some.injEq] at h
        subst h
        exact ⟨List.mem_cons_self x rest, hx⟩
      · rw [if_neg hx] at h
        exact absurd h (by simp)

theorem zipByName_none (es : List ZEntry) (n : String)
    (h : zipByName es n = none) : ∀ e ∈ es, e.name ≠ n := by
  induction es with
  | nil => intro e he; exact absurd he (by simp)
  | cons x rest ih =>
    rw [zipByName] at h
    cases hz : zipByName rest n with
    | some e2 => rw [hz] at h; exact absurd h (by simp)
    | none =>
      rw [hz] at h
      intro e he
      rcases List.mem_cons.mp he with heq | hm
      · subst heq
        by_cases hx : e.name = n
        · rw [if_pos hx] at h; exact absurd h (by simp)
        · exact hx
      · exact ih hz e hm

theorem zipByName_unique (es : List ZEntry) (n : String) (e : ZEntry)
    (hmem : e ∈ es) (hname : e.name = n)
    (huniq : ∀ e2 ∈ es, e2.name = n → e2 = e) :
    zipByName es n = some e := by
  induction es with
  | nil => exact absurd hmem (by simp)
  | cons x rest ih =>
    rw [zipByName]
    cases hz : zipByName rest n with
    | some e2 =>
      obtain ⟨hm2, hn2⟩ := zipByName_sound rest n e2 hz
      rw [huniq e2 (List.mem_cons_of_mem x hm2) hn2]
    | none =>
      rcases List.mem_cons.mp hmem with heq | hm
      · subst heq
        rw [if_pos hname]
      · exact absurd hname (zipByName_none rest n hz e hm)

theorem nodup_map_inj {α β : Type} (f : α → β) (l : List α)
    (h : (l.map f).Nodup) :
    ∀ a ∈ l, ∀ b ∈ l, f a = f b → a = b := by
  induction l with
  | nil => intro a ha; exact absurd ha (by simp)
  | cons x rest ih =>
    simp only [List.map_cons, List.nodup_cons] at h
    intro a ha b hb hf
    rcases List.mem_cons.mp ha with hae | ham <;>
      rcases List.mem_cons.mp hb with hbe | hbm
    · rw [hae, hbe]
    · subst hae
      exact absurd (hf ▸ List.mem_map_of_mem f hbm) h.1
    · subst hbe
      exact absurd (hf ▸ List.mem_map_of_mem f ham) h.1
    · exact ih h.2 a ham b hbm hf

theorem mediaEntriesOf_mem_of (fs : FS) (ms : List MediaFileRef)
    (r : MediaFileRef) (fd : FileData) (hr : r ∈ ms)
    (hs : strStartsWith r.source_path "bundle:" = false)
    (hl : fsLookup fs r.source_path = some fd) :
    ZEntry.mk r.bundle_path (fileBytes fd) ∈ mediaEntriesOf fs ms := by
  induction ms with
  | nil => exact absurd hr (by simp)
  | cons q rest ih =>
    rcases List.mem_cons.mp hr with heq | hm
    · subst heq
      rw [mediaEntriesOf_cons fs r rest fd hs hl]
      exact List.mem_cons_self _ _
    · cases hqs : strStartsWith q.source_path "bundle:" with
      | true => rw [mediaEntriesOf_cons_sentinel fs q rest hqs]; exact ih hm
      | false =>
        cases hql : fsLookup fs q.source_path with
        | none =>
          have : mediaEntriesOf fs (q :: rest) = mediaEntriesOf fs rest := by
            simp [mediaEntriesOf, hqs, hql]
          rw [this]; exact ih hm
        | some fd2 =>
          rw [mediaEntriesOf_cons fs q rest fd2 hqs hql]
          exact List.mem_cons_of_mem _ (ih hm)

theorem mediaEntriesOf_mem_char (fs : FS) (ms : List MediaFileRef)
    (e : ZEntry) (he : e ∈ mediaEntriesOf fs ms) :
    ∃ r, r ∈ ms ∧ e.name = r.bundle_path ∧
      ∃ fd, fsLookup fs r.source_path = some fd ∧ e.data = fileBytes fd := by
  induction ms with
  | nil => exact absurd he (by simp [mediaEntriesOf])
  | cons q rest ih =>
    cases hqs : strStartsWith q.source_path "bundle:" with
    | true =>
      rw [mediaEntriesOf_cons_sentinel fs q rest hqs] at he
      obtain ⟨r, hr, h2⟩ := ih he
      exact ⟨r, List.mem_cons_of_mem q hr, h2⟩
    | false =>
      cases hql : fsLookup fs q.source_path with
      | none =>
        have : mediaEntriesOf fs (q :: rest) = mediaEntriesOf fs rest := by
          simp [mediaEntriesOf, hqs, hql]
        rw [this] at he
        obtain ⟨r, hr, h2⟩ := ih he
        exact ⟨r, List.mem_cons_of_mem q hr, h2⟩
      | some fd =>
        rw [mediaEntriesOf_cons fs q rest fd hqs hql] at he
        rcases List.mem_cons.mp he with heq | hm
        · subst heq
          exact ⟨q, List.mem_cons_self q rest, rfl, fd, hql, rfl⟩
        · obtain ⟨r, hr, h2⟩ := ih hm
          exact ⟨r, List.mem_cons_of_mem q hr, h2⟩

theorem mediaEntriesOf_insert_ne (tmp : String) (d : FileData) (fs : FS)
    (ms : List MediaFileRef) (h : ∀ r ∈ ms, r.source_path ≠ tmp) :
    mediaEntriesOf (fsInsert tmp d fs) ms = mediaEntriesOf fs ms := by
  induction ms with
  | nil => rfl
  | cons q rest ih =>
    have hq : fsLookup (fsInsert tmp d fs) q.source_path =
        fsLookup fs q.source_path :=
      fsLookup_fsInsert_ne fs (fun hh => h q (List.mem_cons_self q rest) hh.symm) d
    have ihr := ih (fun r hr => h r (List.mem_cons_of_mem q hr))
    simp [mediaEntriesOf, hq]
    simp only [mediaEntriesOf] at ihr
    rw [ihr]

theorem writeThemes_noFail_ok (ts : List ThemeFile) (k : Nat) :
    ∃ k2, writeThemes noFail ts k =
      .ok (ts.map (fun t => { name := t.filename, data := t.content }), k2) := by
  induction ts generalizing k with
  | nil => exact ⟨k, rfl⟩
  | cons t rest ih =>
    obtain ⟨k2, hk2⟩ := ih (k + 1)
    refine ⟨k2, ?_⟩
    rw [writeThemes]
    have : noFail k = false := rfl
    rw [this, hk2]
    rfl

theorem writeMedia_noFail_ok (fs : FS) (ms : List MediaFileRef) (k : Nat)
    (h : ∀ r ∈ ms, strStartsWith r.source_path "bundle:" = false →
      (fsLookup fs r.source_path).isSome = true) :
    ∃ k2, writeMedia noFail fs ms k = .ok (mediaEntriesOf fs ms, k2) := by
  induction ms generalizing k with
  | nil => exact ⟨k, rfl⟩
  | cons q rest ih =>
    have hrest := fun r hr => h r (List.mem_cons_of_mem q hr)
    cases hqs : strStartsWith q.source_path "bundle:" with
    | true =>
      obtain ⟨k2, hk2⟩ := ih k hrest
      refine ⟨k2, ?_⟩
      rw [writeMedia, hqs, mediaEntriesOf_cons_sentinel fs q rest hqs]
      simpa using hk2
    | false =>
      obtain ⟨fd, hfd⟩ := Option.isSome_iff_exists.mp
        (h q (List.mem_cons_self q rest) hqs)
      obtain ⟨k2, hk2⟩ := ih (k + 2) hrest
      refine ⟨k2, ?_⟩
      rw [writeMedia, hqs, hfd, mediaEntriesOf_cons fs q rest fd hqs hfd]
      have hn : ∀ j, noFail j = false := fun _ => rfl
      simp only [Bool.false_eq_true, if_false, hn, hk2]

theorem save_noFail_ok (fs : FS) (dest tmp : String) (st : BundleState)
    (h : ∀ r ∈ st.media, strStartsWith r.source_path "bundle:" = false →
      (fsLookup (fsInsert tmp (.raw []) fs) r.source_path).isSome = true) :
    (save_bundle noFail fs dest tmp st).1 = .ok () := by
  obtain ⟨k1, hT⟩ := writeThemes_noFail_ok st.themes 5
  obtain ⟨k2, hM⟩ := writeMedia_noFail_ok (fsInsert tmp (.raw []) fs) st.media k1 h
  have hn : ∀ j, noFail j = false := fun _ => rfl
  rw [save_bundle]
  simp only [hn, Bool.false_eq_true, if_false, hT, hM]

theorem collect_themes_append (all : List ZEntry) (xs ys : List ZEntry)
    (as bs : List ThemeFile) (hx : collect_themes all xs = .ok as)
    (hy : collect_themes all ys = .ok bs) :
    collect_themes all (xs ++ ys) = .ok (as ++ bs) := by
  induction xs generalizing as with
  | nil =>
    rw [collect_themes] at hx
    simp only [Except.ok.injEq] at hx
    subst hx
    simpa using hy
  | cons x rest ih =>
    rw [collect_themes] at hx
    rw [List.cons_append, collect_themes]
    cases hn : isThemeName x.name with
    | false =>
      rw [hn] at hx
      simp only [Bool.false_eq_true, if_false] at hx ⊢
      exact ih as hx
    | true =>
      rw [hn] at hx
      simp only [if_true] at hx ⊢
      cases hr : read_zip_file all x.name with
      | error e => rw [hr] at hx; exact Except.noConfusion hx
      | ok content =>
        rw [hr] at hx
        cases hc : collect_themes all rest with
        | error e => rw [hc] at hx; exact Except.noConfusion hx
        | ok ts2 =>
          rw [hc] at hx
          have hx2 : ({ filename := x.name, content := content } : ThemeFile)
              :: ts2 = as := Except.ok.inj hx
          subst hx2
          rw [ih ts2 hc]
          rfl

theorem collect_themes_skip (all : List ZEntry) (l : List ZEntry)
    (h : ∀ e ∈ l, isThemeName e.name = false) :
    collect_themes all l = .ok [] := by
  induction l with
  | nil => rfl
  | cons x rest ih =>
    rw [collect_themes, h x (List.mem_cons_self x rest)]
    simp only [Bool.false_eq_true, if_false]
    exact ih (fun e he => h e (List.mem_cons_of_mem x he))

theorem collect_themes_exact (all : List ZEntry) (ts : List ThemeFile)
    (h : ∀ t ∈ ts, isThemeName t.filename = true ∧
      read_zip_file all t.filename = .ok t.content) :
    collect_themes all
      (ts.map (fun t => { name := t.filename, data := t.content })) = .ok ts := by
  induction ts with
  | nil => rfl
  | cons t rest ih =>
    obtain ⟨hn, hr⟩ := h t (List.mem_cons_self t rest)
    rw [List.map_cons, collect_themes]
    simp only [hn, if_true, hr,
      ih (fun u hu => h u (List.mem_cons_of_mem t hu))]

theorem bundleEntriesOf_mem_char (fs : FS) (st : BundleState) (e : ZEntry)
    (he : e ∈ bundleEntriesOf fs st) :
    e = { name := "manifest.json", data := st.manifest } ∨
    e = { name := "slides.json", data := st.slides } ∨
    e = { name := "arrangement.json", data := st.arrangement } ∨
    (∃ t ∈ st.themes, e = { name := t.filename, data := t.content }) ∨
    (∃ r ∈ st.media, e.name = r.bundle_path ∧
      ∃ fd, fsLookup fs r.source_path = some fd ∧ e.data = fileBytes fd) := by
  simp only [bundleEntriesOf, List.mem_cons, List.mem_append, List.mem_map] at he
  rcases he with h | h | h | ⟨t, ht, hte⟩ | hm
  · exact Or.inl h
  · exact Or.inr (Or.inl h)
  · exact Or.inr (Or.inr (Or.inl h))
  · exact Or.inr (Or.inr (Or.inr (Or.inl ⟨t, ht, hte.symm⟩)))
  · exact Or.inr (Or.inr (Or.inr (Or.inr
      (mediaEntriesOf_mem_char fs st.media e hm))))

theorem zentry_name_mk (n : String) (d : Bytes) : (ZEntry.mk n d).name = n := rfl

theorem zentry_data_mk (n : String) (d : Bytes) : (ZEntry.mk n d).data = d := rfl

theorem roundtrip_lookups (fs : FS) (st : BundleState)
    (hthm : ∀ t ∈ st.themes, isThemeName t.filename = true)
    (htn : (st.themes.map ThemeFile.filename).Nodup)
    (hmn : (st.media.map MediaFileRef.bundle_path).Nodup)
    (hmx : ∀ r ∈ st.media, r.bundle_path ≠ "manifest.json" ∧
      r.bundle_path ≠ "slides.json" ∧ r.bundle_path ≠ "arrangement.json" ∧
      isThemeName r.bundle_path = false ∧
      ∀ t ∈ st.themes, r.bundle_path ≠ t.filename) :
    zipByName (bundleEntriesOf fs st) "manifest.json" =
      some { name := "manifest.json", data := st.manifest } ∧
    zipByName (bundleEntriesOf fs st) "slides.json" =
      some { name := "slides.json", data := st.slides } ∧
    zipByName (bundleEntriesOf fs st) "arrangement.json" =
      some { name := "arrangement.json", data := st.arrangement } ∧
    (∀ t ∈ st.themes, zipByName (bundleEntriesOf fs st) t.filename =
      some { name := t.filename, data := t.content }) ∧
    (∀ r ∈ st.media, ∀ fd, fsLookup fs r.source_path = some fd →
      strStartsWith r.source_path "bundle:" = false →
      zipByName (bundleEntriesOf fs st) r.bundle_path =
        some { name := r.bundle_path, data := fileBytes fd }) := by
  have hfixed : ∀ t ∈ st.themes, t.filename ≠ "manifest.json" ∧
      t.filename ≠ "slides.json" ∧ t.filename ≠ "arrangement.json" := by
    intro t ht
    have h := hthm t ht
    refine ⟨fun hh => ?_, fun hh => ?_, fun hh => ?_⟩ <;>
      rw [hh] at h <;> exact absurd h (by decide)
  refine ⟨?_, ?_, ?_, ?_, ?_⟩
  · refine zipByName_unique _ "manifest.json"
      { name := "manifest.json", data := st.manifest }
      (by simp [bundleEntriesOf]) rfl ?_
    intro e2 he2 hn2
    rcases bundleEntriesOf_mem_char fs st e2 he2 with h | h | h | ⟨t, ht, h⟩ | ⟨r, hr, hn, _⟩
    · exact h
    · rw [h, zentry_name_mk] at hn2; exact absurd hn2 (by decide)
    · rw [h, zentry_name_mk] at hn2; exact absurd hn2 (by decide)
    · rw [h, zentry_name_mk] at hn2
      exact absurd hn2 (hfixed t ht).1
    · rw [hn] at hn2
      exact absurd hn2 (hmx r hr).1
  · refine zipByName_unique _ "slides.json"
      { name := "slides.json", data := st.slides }
      (by simp [bundleEntriesOf]) rfl ?_
    intro e2 he2 hn2
    rcases bundleEntriesOf_mem_char fs st e2 he2 with h | h | h | ⟨t, ht, h⟩ | ⟨r, hr, hn, _⟩
    · rw [h, zentry_name_mk] at hn2; exact absurd hn2 (by decide)
    · exact h
    · rw [h, zentry_name_mk] at hn2; exact absurd hn2 (by decide)
    · rw [h, zentry_name_mk] at hn2
      exact absurd hn2 (hfixed t ht).2.1
    · rw [hn] at hn2
      exact absurd hn2 (hmx r hr).2.1
  · refine zipByName_unique _ "arrangement.json"
      { name := "arrangement.json", data := st.arrangement }
      (by simp [bundleEntriesOf]) rfl ?_
    intro e2 he2 hn2
    rcases bundleEntriesOf_mem_char fs st e2 he2 with h | h | h | ⟨t, ht, h⟩ | ⟨r, hr, hn, _⟩
    · rw [h, zentry_name_mk] at hn2; exact absurd hn2 (by decide)
    · rw [h, zentry_name_mk] at hn2; exact absurd hn2 (by decide)
    · exact h
    · rw [h, zentry_name_mk] at hn2
      exact absurd hn2 (hfixed t ht).2.2
    · rw [hn] at hn2
      exact absurd hn2 (hmx r hr).2.2.1
  · intro t ht
    refine zipByName_unique _ t.filename
      { name := t.filename, data := t.content } ?_ rfl ?_
    case refine_2 =>
      intro e2 he2 hn2
      rcases bundleEntriesOf_mem_char fs st e2 he2 with h | h | h | ⟨t2, ht2, h⟩ | ⟨r, hr, hn, _⟩
      · rw [h, zentry_name_mk] at hn2
        exact absurd hn2.symm (hfixed t ht).1
      · rw [h, zentry_name_mk] at hn2
        exact absurd hn2.symm (hfixed t ht).2.1
      · rw [h, zentry_name_mk] at hn2
        exact absurd hn2.symm (hfixed t ht).2.2
      · rw [h, zentry_name_mk] at hn2
        have ht2t : t2 = t := nodup_map_inj ThemeFile.filename st.themes htn
          t2 ht2 t ht hn2
        rw [h, ht2t]
      · rw [hn] at hn2
        exact absurd hn2 ((hmx r hr).2.2.2.2 t ht)
    · simp only [bundleEntriesOf, List.mem_cons, List.mem_append, List.mem_map]
      exact Or.inr (Or.inr (Or.inr (Or.inl ⟨t, ht, rfl⟩)))
  · intro r hr fd hfd hsb
    refine zipByName_unique _ r.bundle_path
      { name := r.bundle_path, data := fileBytes fd } ?_ rfl ?_
    case refine_2 =>
      intro e2 he2 hn2
      rcases bundleEntriesOf_mem_char fs st e2 he2 with h | h | h | ⟨t, ht, h⟩ | ⟨r2, hr2, hn, fd2, hfd2, hdata⟩
      · rw [h, zentry_name_mk] at hn2
        exact absurd hn2.symm (hmx r hr).1
      · rw [h, zentry_name_mk] at hn2
        exact absurd hn2.symm (hmx r hr).2.1
      · rw [h, zentry_name_mk] at hn2
        exact absurd hn2.symm (hmx r hr).2.2.1
      · rw [h, zentry_name_mk] at hn2
        exact absurd hn2.symm ((hmx r hr).2.2.2.2 t ht)
      · have hrr : r2 = r := nodup_map_inj MediaFileRef.bundle_path st.media hmn
          r2 hr2 r hr (by rw [← hn, hn2])
        rw [hrr, hfd] at hfd2
        obtain ⟨n2, d2⟩ := e2
        rw [zentry_name_mk] at hn2
        rw [zentry_data_mk] at hdata
        simp only [Option.some.injEq] at hfd2
        rw [hn2, hdata, ← hfd2]
    · simp only [bundleEntriesOf, List.mem_cons, List.mem_append]
      exact Or.inr (Or.inr (Or.inr (Or.inr
        (mediaEntriesOf_mem_of fs st.media r fd hr hsb hfd))))

theorem collect_themes_cons_not (all : List ZEntry) (x : ZEntry)
    (l : List ZEntry) (h : isThemeName x.name = false) :
    collect_themes all (x :: l) = collect_themes all l := by
  rw [collect_themes, h]
  simp

/-- **C1 (amended)**: for a `BundleState` whose media references all carry
real, readable, non-sentinel source paths, whose theme filenames are
`themes/*.json`, whose manifest parses with both required keys — and (the
amendment) whose theme filenames are pairwise distinct and whose media
`bundle_path`s are pairwise distinct, distinct from the three fixed entry
names and from every theme filename, and not themselves of `themes/*.json`
shape — saving and reopening reproduces `manifest`, `slides`,
`arrangement` and `themes` byte-for-byte, and `read_bundle_media` at each
reference's `bundle_path` returns exactly its source file's bytes.
(The texts are Rust `String`s, hence the `validUTF8` typing hypotheses;
`tmp` is the fresh temp-file name.) -/
theorem claim_C1_save_open_roundtrip (jp : Bytes → Option (List String))
    (fs : FS) (dest tmp : String) (st : BundleState) (keys : List String)
    (hne : tmp ≠ dest)
    (hsrc : ∀ r ∈ st.media, strStartsWith r.source_path "bundle:" = false ∧
      r.source_path ≠ tmp ∧ (fsLookup fs r.source_path).isSome = true)
    (hthm : ∀ t ∈ st.themes, isThemeName t.filename = true)
    (hvm : validUTF8 st.manifest = true) (hvs : validUTF8 st.slides = true)
    (hva : validUTF8 st.arrangement = true)
    (hvt : ∀ t ∈ st.themes, validUTF8 t.content = true)
    (hjp : jp st.manifest = some keys)
    (hk1 : keys.contains "formatVersion" = true)
    (hk2 : keys.contains "presentationId" = true)
    (htn : (st.themes.map ThemeFile.filename).Nodup)
    (hmn : (st.media.map MediaFileRef.bundle_path).Nodup)
    (hmx : ∀ r ∈ st.media, r.bundle_path ≠ "manifest.json" ∧
      r.bundle_path ≠ "slides.json" ∧ r.bundle_path ≠ "arrangement.json" ∧
      isThemeName r.bundle_path = false ∧
      ∀ t ∈ st.themes, r.bundle_path ≠ t.filename) :
    (save_bundle noFail fs dest tmp st).1 = .ok () ∧
    open_bundle jp (save_bundle noFail fs dest tmp st).2 dest =
      .ok { manifest := st.manifest, slides := st.slides,
            arrangement := st.arrangement, themes := st.themes } ∧
    (∀ r ∈ st.media, ∀ fd, fsLookup fs r.source_path = some fd →
      read_bundle_media (save_bundle noFail fs dest tmp st).2 dest r.bundle_path =
        .ok (fileBytes fd)) := by
  have hsrc1 : ∀ r ∈ st.media, strStartsWith r.source_path "bundle:" = false →
      (fsLookup (fsInsert tmp (.raw []) fs) r.source_path).isSome = true := by
    intro r hr _
    rw [fsLookup_fsInsert_ne fs (fun hh => (hsrc r hr).2.1 hh.symm) (.raw [])]
    exact (hsrc r hr).2.2
  have hok : (save_bundle noFail fs dest tmp st).1 = .ok () :=
    save_noFail_ok fs dest tmp st hsrc1
  have hEm : bundleEntriesOf (fsInsert tmp (.raw []) fs) st =
      bundleEntriesOf fs st := by
    rw [bundleEntriesOf, bundleEntriesOf, mediaEntriesOf_insert_ne tmp (.raw [])
      fs st.media (fun r hr => (hsrc r hr).2.1)]
  have hdest : fsLookup (save_bundle noFail fs dest tmp st).2 dest =
      some (.zipArchive (bundleEntriesOf fs st)) := by
    rw [← hEm]
    exact (save_bundle_cases noFail fs dest tmp st hne).2 hok
  have hzo : zipOpen (save_bundle noFail fs dest tmp st).2 dest =
      .ok (bundleEntriesOf fs st) := by
    rw [zipOpen, hdest]
  obtain ⟨hzm, hzs, hza, hzt, hzmed⟩ := roundtrip_lookups fs st hthm htn hmn hmx
  have hrm : read_zip_file (bundleEntriesOf fs st) "manifest.json" =
      .ok st.manifest := by
    simp [read_zip_file, hzm, hvm]
  have hrs : read_zip_file (bundleEntriesOf fs st) "slides.json" =
      .ok st.slides := by
    simp [read_zip_file, hzs, hvs]
  have hra : read_zip_file (bundleEntriesOf fs st) "arrangement.json" =
      .ok st.arrangement := by
    simp [read_zip_file, hza, hva]
  have hct : collect_themes (bundleEntriesOf fs st) (bundleEntriesOf fs st) =
      .ok st.themes := by
    have hskip : collect_themes (bundleEntriesOf fs st)
        (mediaEntriesOf fs st.media) = .ok [] := by
      apply collect_themes_skip
      intro e he
      obtain ⟨r, hr, hn, _⟩ := mediaEntriesOf_mem_char fs st.media e he
      rw [hn]
      exact (hmx r hr).2.2.2.1
    have hexact : collect_themes (bundleEntriesOf fs st)
        (st.themes.map (fun t => { name := t.filename, data := t.content })) =
        .ok st.themes := by
      apply collect_themes_exact
      intro t ht
      refine ⟨hthm t ht, ?_⟩
      simp [read_zip_file, hzt t ht, hvt t ht]
    have happ := collect_themes_append (bundleEntriesOf fs st) _ _ _ _ hexact hskip
    conv_lhs => rw [bundleEntriesOf]
    rw [collect_themes_cons_not _ _ _ (by rw [zentry_name_mk]; decide),
      collect_themes_cons_not _ _ _ (by rw [zentry_name_mk]; decide),
      collect_themes_cons_not _ _ _ (by rw [zentry_name_mk]; decide)]
    exact happ.trans (by rw [List.append_nil])
  have hk1m : "formatVersion" ∈ keys := by simpa using hk1
  have hk2m : "presentationId" ∈ keys := by simpa using hk2
  refine ⟨hok, ?_, ?_⟩
  · simp [open_bundle, hzo, hrm, hjp, hk1m, hk2m, hrs, hra, hct]
  · intro r hr fd hfd
    have hz := hzmed r hr fd hfd (hsrc r hr).1
    simp [read_bundle_media, hzo, hz]

/-- Counterexample to C1 as stated: the media payload written at
`themes/x.json` is collected as a theme on reopen, so the reopened
bundle's themes differ from the state's (which were empty) although every
hypothesis of the claim — real non-sentinel sources, `themes/*.json` theme
filenames (vacuously), manifest keys present — holds. -/
theorem claim_C1_counterexample :
    (save_bundle noFail fsBad "/p/out.cpres" "/p/.tmp1" stBad).1 = .ok () ∧
    open_bundle jpBoth (save_bundle noFail fsBad "/p/out.cpres" "/p/.tmp1" stBad).2
        "/p/out.cpres" =
      .ok { manifest := [77], slides := [83], arrangement := [65],
            themes := [{ filename := "themes/x.json", content := [123] }] } ∧
    ([{ filename := "themes/x.json", content := [123] }] : List ThemeFile) ≠
      stBad.themes :=
  ⟨rfl, rfl, by decide⟩

/-- Witness for the amended C1 at a concrete bundle with one theme and one
media file. -/
theorem claim_C1_witness :
    (save_bundle noFail fsGood "/p/out.cpres" "/p/.tmp1" stGood).1 = .ok () ∧
    open_bundle jpBoth (save_bundle noFail fsGood "/p/out.cpres" "/p/.tmp1" stGood).2
        "/p/out.cpres" =
      .ok { manifest := stGood.manifest, slides := stGood.slides,
            arrangement := stGood.arrangement, themes := stGood.themes } ∧
    read_bundle_media (save_bundle noFail fsGood "/p/out.cpres" "/p/.tmp1" stGood).2
      "/p/out.cpres" "media/img.png" = .ok [7, 8] := by
  obtain ⟨h1, h2, h3⟩ := claim_C1_save_open_roundtrip jpBoth fsGood
    "/p/out.cpres" "/p/.tmp1" stGood ["formatVersion", "presentationId"]
    (by decide) (by decide) (by decide) (by decide) (by decide) (by decide)
    (by decide) rfl (by decide) (by decide) (by decide) (by decide) (by decide)
  exact ⟨h1, h2, h3 ⟨"m1", "/src/img", "media/img.png"⟩ (by decide)
    (.raw [7, 8]) rfl⟩

end Cpres
